import Mathlib

/-!
Shallow embedding of `src/lib/bpUtil.js` (blushproof).

The module under verification is a set of pure string-transformation
functions layered over external collaborators that the module does not
implement: the Mozilla effective-TLD service (`nsIEffectiveTLDService`),
the SHA-256 hash primitive (`nsICryptoHash`), the `querystring` parser
module, and the JavaScript builtin `decodeURI`.  Following the spec's
architecture (§6, external interfaces), the eTLD service and the SHA-256
digest are parameters of the embedded functions (a throwing service call
is an `Except.error`), while `querystring.parse` and `decodeURI` are
modelled concretely below.  A JavaScript exception escaping
`getSearchTermFromURI` (only `decodeURI` can throw there) is modelled by
the function returning `Except.error`; an ordinary return of a string `s`
is `Except.ok s`.
-/

/-- An `nsIURI` as consumed by the module: only `host` and `path` are read
(`path` includes the leading `/` and the query string). -/
structure URI where
  host : String
  path : String
deriving DecidableEq, Repr

/-- The external effective-TLD service, `nsIEffectiveTLDService`.  Each
method may throw (modelled by `Except.error` carrying the exception
message). -/
structure ETLDService where
  getBaseDomainFromHost : String → Except String String
  getPublicSuffix : URI → Except String String

/-- Embedding of `getBaseDomainFromHost` (bpUtil.js lines 20-28):
`let etld = aHost; try { etld = eTLDService.getBaseDomainFromHost(aHost); }
catch (e) { console.log(...); } return etld;`.  The `catch` swallows any
service failure, leaving `etld` at its initial value `aHost`. -/
def getBaseDomainFromHost (svc : ETLDService) (aHost : String) : String :=
  match svc.getBaseDomainFromHost aHost with
  | .ok v => v
  | .error _ => aHost

/-- Embedding of `getPublicSuffix` (bpUtil.js lines 36-44):
`let suffix = aURI.host; try { suffix = eTLDService.getPublicSuffix(aURI); }
catch (e) { ... } return suffix;`. -/
def getPublicSuffix (svc : ETLDService) (aURI : URI) : String :=
  match svc.getPublicSuffix aURI with
  | .ok v => v
  | .error _ => aURI.host

/-- One entry of `searchMap`: `{ "path" : ..., "query" : ... }`. -/
structure SearchEntry where
  path : String
  query : String
deriving DecidableEq, Repr

/-- Embedding of the `searchMap` object literal (bpUtil.js lines 51-57),
in source order. -/
def searchMap : List (String × SearchEntry) :=
  [ ("amazon", ⟨"/exec/obidos/external-search?", "field-keywords"⟩),
    ("bing",   ⟨"/search?", "q"⟩),
    ("google", ⟨"/search?", "q"⟩),
    ("yahoo",  ⟨"/search?", "p"⟩) ]

/-- JavaScript property read `searchMap[k]`: `none` models `undefined`
(the falsy value tested by `if (!searchMap[searchProvider])`).  Inherited
`Object.prototype` properties are not modelled; no claim depends on them. -/
def searchMapLookup (k : String) : Option SearchEntry :=
  searchMap.lookup k

/-- JavaScript `s.indexOf(pat)` for strings: the smallest position at
which `pat` occurs in `s` (an empty `pat` occurs at 0), or `-1` when
`pat` does not occur. -/
def strIndexOf (s pat : String) : Int :=
  match (List.range (s.data.length + 1)).find?
      (fun i => pat.data.isPrefixOf (s.data.drop i)) with
  | some i => (i : Int)
  | none => -1

/-- JavaScript `s.substr(start)` with a non-negative start: the suffix
from `start` to the end. -/
def jsSubstrFrom (s : String) (start : Nat) : String :=
  String.mk (s.data.drop start)

/-- JavaScript `s.substr(start, len)` with a non-negative start and a
possibly negative `len`: a non-positive `len` yields `""`. -/
def jsSubstrLen (s : String) (start : Nat) (len : Int) : String :=
  String.mk ((s.data.drop start).take len.toNat)

/-- JavaScript `s.replace(pat, rep)` with string arguments: replaces only
the first occurrence of `pat`, or returns `s` unchanged when `pat` does
not occur. -/
def jsReplaceFirst (s pat rep : String) : String :=
  match (List.range (s.data.length + 1)).find?
      (fun i => pat.data.isPrefixOf (s.data.drop i)) with
  | some i =>
      String.mk (s.data.take i ++ rep.data ++ s.data.drop (i + pat.data.length))
  | none => s

/-- Is `c` a hexadecimal digit of a `%XY` escape? -/
def isHexDigit (c : Char) : Bool :=
  ('0' ≤ c && c ≤ '9') || ('a' ≤ c && c ≤ 'f') || ('A' ≤ c && c ≤ 'F')

/-- Numeric value of a hexadecimal digit. -/
def hexVal (c : Char) : Nat :=
  if '0' ≤ c && c ≤ '9' then c.toNat - '0'.toNat
  else if 'a' ≤ c && c ≤ 'f' then c.toNat - 'a'.toNat + 10
  else if 'A' ≤ c && c ≤ 'F' then c.toNat - 'A'.toNat + 10
  else 0

/-- Read one `%XY` escape from the front of `l`; returns the byte value,
the three source characters, and the remainder.  `none` models the
`URIError` thrown on a malformed escape. -/
def readEscByte : List Char → Option (Nat × List Char × List Char)
  | '%' :: h1 :: h2 :: rest =>
      if isHexDigit h1 && isHexDigit h2 then
        some (16 * hexVal h1 + hexVal h2, ['%', h1, h2], rest)
      else none
  | _ => none

/-- Read `n` further `%XY` escapes whose bytes are UTF-8 continuation
bytes (`0x80 ≤ b < 0xC0`). -/
def readContBytes : Nat → List Char → Option (List Nat × List Char)
  | 0, l => some ([], l)
  | n + 1, l => do
      let (b, _, l') ← readEscByte l
      if 0x80 ≤ b && b < 0xC0 then
        let (bs, l'') ← readContBytes n l'
        some (b :: bs, l'')
      else none

/-- Code point assembled from a UTF-8 leading byte and its continuation
bytes. -/
def utf8CodePoint (b : Nat) (bs : List Nat) : Nat :=
  match bs with
  | [] => b
  | [b1] => (b % 0x20) * 64 + (b1 % 0x40)
  | [b1, b2] => (b % 0x10) * 4096 + (b1 % 0x40) * 64 + (b2 % 0x40)
  | [b1, b2, b3] =>
      (b % 8) * 262144 + (b1 % 0x40) * 4096 + (b2 % 0x40) * 64 + (b3 % 0x40)
  | _ => 0

/-- Worker for the percent-decoders: `reserved` holds the characters whose
escapes are left untouched (JavaScript `decodeURI` preserves escapes of
its reserved set; `decodeURIComponent` decodes everything).  `none`
models a thrown `URIError`.  `fuel` only bounds the recursion; the
callers pass more fuel than there are input characters. -/
def percentDecodeAux (reserved : List Char) : Nat → List Char → Option (List Char)
  | 0, _ => none
  | _, [] => some []
  | fuel + 1, l@('%' :: _) => do
      let (b, src, l') ← readEscByte l
      if b < 0x80 then
        let c := Char.ofNat b
        let tail ← percentDecodeAux reserved fuel l'
        if reserved.contains c then some (src ++ tail) else some (c :: tail)
      else do
        let n ← if b < 0xC0 then none
                else if b < 0xE0 then some 1
                else if b < 0xF0 then some 2
                else if b < 0xF8 then some 3 else none
        let (bs, l'') ← readContBytes n l'
        let cp := utf8CodePoint b bs
        if cp < 0xD800 || (0xE000 ≤ cp && cp < 0x110000) then
          let tail ← percentDecodeAux reserved fuel l''
          some (Char.ofNat cp :: tail)
        else none
  | fuel + 1, c :: rest => do
      let tail ← percentDecodeAux reserved fuel rest
      some (c :: tail)

/-- The reserved set of `decodeURI` (`uriReserved` plus `#`), whose
escape sequences it leaves untouched. -/
def uriReservedPlusHash : List Char :=
  [';', '/', '?', ':', '@', '&', '=', '+', '$', ',', '#']

/-- Model of the JavaScript builtin `decodeURI` (an external collaborator
of bpUtil.js): decodes `%XY` escapes as UTF-8, leaving escapes of the
reserved set untouched; a malformed escape or invalid sequence throws
`URIError` (= `Except.error`). -/
def decodeURI (s : String) : Except String String :=
  match percentDecodeAux uriReservedPlusHash (s.data.length + 1) s.data with
  | some l => .ok (String.mk l)
  | none => .error "URIError"

/-- Model of `decodeURIComponent`, used by the query-string parser:
like `decodeURI` but with an empty reserved set. -/
def decodeURIComponent (s : String) : Except String String :=
  match percentDecodeAux [] (s.data.length + 1) s.data with
  | some l => .ok (String.mk l)
  | none => .error "URIError"

/-- Split a character list at every `'&'` (the query-string pair
separator). -/
def splitOnAmp : List Char → List (List Char)
  | [] => [[]]
  | '&' :: rest => [] :: splitOnAmp rest
  | c :: rest =>
      match splitOnAmp rest with
      | [] => [[c]]
      | p :: ps => (c :: p) :: ps

/-- Model of JavaScript `toLowerCase` on the ASCII range (all inputs the
claims exercise): lowercase each character. -/
def jsToLowerCase (s : String) : String :=
  String.mk (s.data.map Char.toLower)

/-- Decode one key or value as the `querystring` module does: attempt
`decodeURIComponent`, falling back to the raw text when it throws. -/
def qsUnescape (s : String) : String :=
  match decodeURIComponent s with
  | .ok v => v
  | .error _ => s

/-- Split one `k=v` fragment at its first `=` (no `=`: the whole fragment
is the key, the value is empty). -/
def qsSplitKV (part : String) : String × String :=
  match part.data.findIdx? (· = '=') with
  | some i => (String.mk (part.data.take i), String.mk (part.data.drop (i + 1)))
  | none => (part, "")

/-- Model of the external `querystring` module's `parse` (spec §6: given a
URL-encoded string, returns a mapping of parameter name → value): split
on `&`, split each fragment at its first `=`, percent-decode keys and
values.  `parse("")` is the empty mapping.  Repeated keys keep all
bindings in order (Node's array collection is not modelled; no claim
depends on repeated keys). -/
def querystringParse (s : String) : List (String × String) :=
  if s.isEmpty then []
  else (splitOnAmp s.data).map (fun part =>
    let kv := qsSplitKV (String.mk part)
    (qsUnescape kv.1, qsUnescape kv.2))

/-- The JavaScript value returned by `querystring.parse` as tested by the
guard `if (!q)`: `none` would model a falsy return; `parse` always
returns an object, hence always `some`. -/
def querystringParseJS (s : String) : Option (List (String × String)) :=
  some (querystringParse s)

/-- JavaScript property read `q[key]` on the parsed mapping: the last
binding of a repeated key wins; `none` models `undefined`. -/
def qsGet (q : List (String × String)) (key : String) : Option String :=
  q.reverse.lookup key

/-- Embedding of `getSearchTermFromURI` (bpUtil.js lines 64-90).
`Except.error` models an uncaught JavaScript exception (only `decodeURI`
throws on this path); every explicit `return` of the source is
`Except.ok`.  A missing query parameter makes `q[...]` `undefined`,
which `decodeURI` coerces to the string `"undefined"`. -/
def getSearchTermFromURI (svc : ETLDService) (aURI : URI) : Except String String :=
  let host := getBaseDomainFromHost svc aURI.host
  let publicSuffix := getPublicSuffix svc aURI
  if strIndexOf host publicSuffix = -1 then .ok ""
  else
    let searchProvider :=
      jsSubstrLen host 0 ((host.data.length : Int) - publicSuffix.data.length - 1)
    match searchMapLookup searchProvider with
    | none => .ok ""
    | some entry =>
      let path := aURI.path
      if strIndexOf path entry.path ≠ 0 then .ok ""
      else
        let q := jsSubstrFrom path entry.path.data.length
        match querystringParseJS q with
        | none => .ok ""
        | some qm =>
          let v := match qsGet qm entry.query with
                   | some v => v
                   | none => "undefined"
          (decodeURI v).map (fun s => jsReplaceFirst (jsToLowerCase s) "+" " ")

/-- `getSearchTermFromURI` with the `if (!q)` parse-failure guard removed
(the parsed mapping is used unconditionally); used to state that the
guard is unreachable. -/
def getSearchTermFromURINoGuard (svc : ETLDService) (aURI : URI) : Except String String :=
  let host := getBaseDomainFromHost svc aURI.host
  let publicSuffix := getPublicSuffix svc aURI
  if strIndexOf host publicSuffix = -1 then .ok ""
  else
    let searchProvider :=
      jsSubstrLen host 0 ((host.data.length : Int) - publicSuffix.data.length - 1)
    match searchMapLookup searchProvider with
    | none => .ok ""
    | some entry =>
      let path := aURI.path
      if strIndexOf path entry.path ≠ 0 then .ok ""
      else
        let q := jsSubstrFrom path entry.path.data.length
        let qm := querystringParse q
        let v := match qsGet qm entry.query with
                 | some v => v
                 | none => "undefined"
        (decodeURI v).map (fun s => jsReplaceFirst (jsToLowerCase s) "+" " ")

/-- Embedding of the inner `toHexString` of `getHash`:
`("0" + charCode.toString(16)).slice(-2)` (`Nat.toDigits 16` renders in
lowercase hex exactly as JavaScript `toString(16)` does for naturals). -/
def toHexString (charCode : Nat) : String :=
  let s := "0" ++ String.mk (Nat.toDigits 16 charCode)
  String.mk (s.data.drop (s.data.length - 2))

/-- Embedding of `getHash` (bpUtil.js lines 98-115).  The SHA-256
primitive (`nsICryptoHash` over the UTF-8 bytes of the input) is the
external parameter `sha256`, returning the digest as the byte list whose
entries the source reads off with `charCodeAt`; the function renders each
byte in hex and keeps the first 48 characters (`hashStr.slice(0, 48)`). -/
def getHash (sha256 : String → List Nat) (aString : String) : String :=
  let hash := sha256 aString
  let hashStr := String.join (hash.map toHexString)
  String.mk (hashStr.data.take 48)

/-- Embedding of `getKeyForHost` (bpUtil.js lines 117-119):
`getHash(getBaseDomainFromHost(aHost))`. -/
def getKeyForHost (svc : ETLDService) (sha256 : String → List Nat) (aHost : String) : String :=
  getHash sha256 (getBaseDomainFromHost svc aHost)

/-- Embedding of `getKeyForQuery` (bpUtil.js lines 121-123):
`getHash(aQuery)`. -/
def getKeyForQuery (sha256 : String → List Nat) (aQuery : String) : String :=
  getHash sha256 aQuery

/-- The lowercase hexadecimal alphabet. -/
def hexLowerChars : List Char :=
  "0123456789abcdef".data

/-- A concrete eTLD service behaving as Mozilla's does on the google
hosts used in the spec's examples. -/
def svcGoogle : ETLDService :=
  { getBaseDomainFromHost := fun h =>
      if h = "www.google.com" then .ok "google.com"
      else if h = "google.com" then .ok "google.com"
      else .error "NS_ERROR_INSUFFICIENT_DOMAIN_LEVELS",
    getPublicSuffix := fun _ => .ok "com" }

/-- A concrete eTLD service whose every call throws. -/
def svcFail : ETLDService :=
  { getBaseDomainFromHost := fun _ => .error "NS_ERROR_ILLEGAL_VALUE",
    getPublicSuffix := fun _ => .error "NS_ERROR_ILLEGAL_VALUE" }

/-- A concrete eTLD service returning a base domain (`"abc"`) and a
public suffix (`"zz"`) that is not a substring of it. -/
def svcAbc : ETLDService :=
  { getBaseDomainFromHost := fun _ => .ok "abc",
    getPublicSuffix := fun _ => .ok "zz" }

/-- A concrete eTLD service for which base domain and public suffix
coincide (`"com"`). -/
def svcCom : ETLDService :=
  { getBaseDomainFromHost := fun _ => .ok "com",
    getPublicSuffix := fun _ => .ok "com" }

/-- A concrete stand-in for the SHA-256 digest: 32 bytes `0, 1, ..., 31`. -/
def shaDummy : String → List Nat := fun _ => List.range 32

set_option maxRecDepth 4096 in
/-- `toHexString` of a byte value is exactly two characters
(`("0" + c.toString(16)).slice(-2)`). -/
theorem toHexString_len : ∀ b < 256, (toHexString b).length = 2 := by decide

set_option maxRecDepth 4096 in
/-- `toHexString` of a byte value consists of lowercase hex characters. -/
theorem toHexString_hex : ∀ b < 256, ∀ c ∈ (toHexString b).data, c ∈ hexLowerChars := by
  decide

/-- The characters of `String.join` are the concatenation of the
characters of the parts. -/
theorem join_data (l : List String) :
    (String.join l).data = l.foldr (fun t r => t.data ++ r) [] := by
  have key : ∀ (l : List String) (acc : String),
      (l.foldl (· ++ ·) acc).data = acc.data ++ l.foldr (fun t r => t.data ++ r) [] := by
    intro l
    induction l with
    | nil => intro acc; simp
    | cons t ts ih => intro acc; simp [ih]
  simpa [String.join] using key l ""

/-- Length of the concatenated hex rendering of a byte list. -/
theorem hexConcat_length (l : List Nat) (h : ∀ b ∈ l, b < 256) :
    ((l.map toHexString).foldr (fun t r => t.data ++ r) []).length = 2 * l.length := by
  induction l with
  | nil => simp
  | cons b bs ih =>
      have hb : (toHexString b).data.length = 2 := toHexString_len b (h b (by simp))
      simp only [List.map_cons, List.foldr_cons, List.length_append, List.length_cons, hb,
        ih (fun x hx => h x (by simp [hx]))]
      omega

/-- Every character of the concatenated hex rendering of a byte list is
lowercase hex. -/
theorem hexConcat_mem (l : List Nat) (h : ∀ b ∈ l, b < 256) :
    ∀ c ∈ (l.map toHexString).foldr (fun t r => t.data ++ r) [], c ∈ hexLowerChars := by
  induction l with
  | nil => simp
  | cons b bs ih =>
      intro c hc
      simp only [List.map_cons, List.foldr_cons, List.mem_append] at hc
      cases hc with
      | inl h1 => exact toHexString_hex b (h b (by simp)) c h1
      | inr h2 => exact ih (fun x hx => h x (by simp [hx])) c h2

/-- Output shape of `getHash`: with a 32-byte digest the hex string has
64 characters and `slice(0, 48)` keeps 48 of them, all lowercase hex. -/
theorem getHash_spec (sha256 : String → List Nat) (s : String)
    (hlen : (sha256 s).length = 32) (hbyte : ∀ b ∈ sha256 s, b < 256) :
    (getHash sha256 s).length = 48 ∧ ∀ c ∈ (getHash sha256 s).data, c ∈ hexLowerChars := by
  constructor
  · show ((String.join ((sha256 s).map toHexString)).data.take 48).length = 48
    rw [List.length_take, join_data, hexConcat_length _ hbyte, hlen]
    omega
  · intro c hc
    have hmem : c ∈ (String.join ((sha256 s).map toHexString)).data :=
      List.take_subset _ _ hc
    rw [join_data] at hmem
    exact hexConcat_mem _ hbyte c hmem

/-- `List.isPrefixOf` is reflexive. -/
theorem isPrefixOf_self (l : List Char) : l.isPrefixOf l = true := by
  induction l with
  | nil => rfl
  | cons c cs ih => simp [List.isPrefixOf, ih]

/-- If the pattern occurs at no start position of `s`, `indexOf` is `-1`. -/
theorem strIndexOf_eq_neg_one (s pat : String)
    (h : ∀ i ≤ s.data.length, pat.data.isPrefixOf (s.data.drop i) = false) :
    strIndexOf s pat = -1 := by
  unfold strIndexOf
  have hnone : (List.range (s.data.length + 1)).find?
      (fun i => pat.data.isPrefixOf (s.data.drop i)) = none := by
    rw [List.find?_eq_none]
    intro i hi
    have hle : i ≤ s.data.length := by
      have := List.mem_range.mp hi; omega
    simp [h i hle]
  rw [hnone]

/-- `indexOf` of a string within itself is 0. -/
theorem strIndexOf_self (s : String) : strIndexOf s s = 0 := by
  unfold strIndexOf
  rw [List.range_succ_eq_map, List.find?_cons_of_pos _ (by simp [isPrefixOf_self])]
  rfl

/-- C1 (code-bug evaluation): for host `"google.com"`, path `"/search?"`
— provider `google` matched, but `queryParam` `q` absent from the parsed
mapping — `getSearchTermFromURI` returns the string `"undefined"` (the
`undefined` property read is coerced by `decodeURI` to `"undefined"`),
not the empty string the spec claims. -/
theorem claim_C1_eval :
    getSearchTermFromURI svcGoogle ⟨"google.com", "/search?"⟩ = .ok "undefined" := by
  rfl

/-- C2: `getBaseDomainFromHost` and `getPublicSuffix` are total (they
never raise, for any string input) and, whenever the eTLD service
throws, each catches the failure and returns its input unchanged (the
host, resp. `uri.host`). -/
theorem claim_C2 (svc : ETLDService) (h : String) (uri : URI) :
    (∀ e, svc.getBaseDomainFromHost h = .error e → getBaseDomainFromHost svc h = h) ∧
    (∀ e, svc.getPublicSuffix uri = .error e → getPublicSuffix svc uri = uri.host) := by
  constructor
  · intro e he
    simp [getBaseDomainFromHost, he]
  · intro e he
    simp [getPublicSuffix, he]

/-- C2 witness: an always-throwing service applied to the empty string. -/
theorem claim_C2_witness :
    getBaseDomainFromHost svcFail "" = "" ∧ getPublicSuffix svcFail ⟨"", ""⟩ = "" := by
  exact ⟨(claim_C2 svcFail "" ⟨"", ""⟩).1 "NS_ERROR_ILLEGAL_VALUE" rfl,
         (claim_C2 svcFail "" ⟨"", ""⟩).2 "NS_ERROR_ILLEGAL_VALUE" rfl⟩

/-- C3: `getKeyForHost h` equals `getHash (getBaseDomainFromHost h)`,
and — the digest being 32 bytes — the result is exactly 48 lowercase
hexadecimal characters (the first 24 digest bytes in hex). -/
theorem claim_C3 (svc : ETLDService) (sha256 : String → List Nat) (h : String)
    (hlen : ∀ s, (sha256 s).length = 32) (hbyte : ∀ s, ∀ b ∈ sha256 s, b < 256) :
    getKeyForHost svc sha256 h = getHash sha256 (getBaseDomainFromHost svc h) ∧
    (getKeyForHost svc sha256 h).length = 48 ∧
    ∀ c ∈ (getKeyForHost svc sha256 h).data, c ∈ hexLowerChars := by
  exact ⟨rfl, (getHash_spec sha256 _ (hlen _) (hbyte _)).1,
         (getHash_spec sha256 _ (hlen _) (hbyte _)).2⟩

/-- C3 witness: the concrete digest `0, ..., 31` and host
`"www.google.com"` (on a throwing service, so the base domain is the
host itself). -/
theorem claim_C3_witness :
    getKeyForHost svcFail shaDummy "www.google.com" =
      getHash shaDummy (getBaseDomainFromHost svcFail "www.google.com") ∧
    (getKeyForHost svcFail shaDummy "www.google.com").length = 48 := by
  have h1 : ∀ s, (shaDummy s).length = 32 := fun s => by simp [shaDummy]
  have h2 : ∀ s, ∀ b ∈ shaDummy s, b < 256 := by
    intro s b hb
    simp [shaDummy, List.mem_range] at hb
    omega
  have hc := claim_C3 svcFail shaDummy "www.google.com" h1 h2
  exact ⟨hc.1, hc.2.1⟩

/-- C4: whenever the pipeline reaches the query value (suffix contained
in the base domain, provider found, path prefix at position 0), the
result is: URI-decode the looked-up value (`"undefined"` when absent),
lowercase it, then replace only the first literal `+` with a space
(`replace` with a string pattern is non-global). -/
theorem claim_C4 (svc : ETLDService) (uri : URI) (entry : SearchEntry)
    (hsub : strIndexOf (getBaseDomainFromHost svc uri.host) (getPublicSuffix svc uri) ≠ -1)
    (hprov : searchMapLookup (jsSubstrLen (getBaseDomainFromHost svc uri.host) 0
        (((getBaseDomainFromHost svc uri.host).data.length : Int)
          - ((getPublicSuffix svc uri).data.length : Int) - 1)) = some entry)
    (hpath : strIndexOf uri.path entry.path = 0) :
    getSearchTermFromURI svc uri =
      (decodeURI (match qsGet (querystringParse (jsSubstrFrom uri.path entry.path.data.length))
            entry.query with
          | some v => v
          | none => "undefined")).map (fun s => jsReplaceFirst (jsToLowerCase s) "+" " ") := by
  simp only [getSearchTermFromURI, querystringParseJS]
  rw [if_neg hsub]
  simp only [hprov]
  rw [if_neg (fun hcon => hcon hpath)]

/-- C4 witness: `host="www.google.com"`, `path="/search?q=hello+world"`
gives `"hello world"`, and with several `+` characters only the first is
converted (`"/search?q=a+b+c"` gives `"a b+c"`). -/
theorem claim_C4_witness :
    getSearchTermFromURI svcGoogle ⟨"www.google.com", "/search?q=hello+world"⟩ =
      .ok "hello world" ∧
    getSearchTermFromURI svcGoogle ⟨"www.google.com", "/search?q=a+b+c"⟩ = .ok "a b+c" := by
  have h1 := claim_C4 svcGoogle ⟨"www.google.com", "/search?q=hello+world"⟩
    ⟨"/search?", "q"⟩ (by decide) (by decide) (by decide)
  have h2 := claim_C4 svcGoogle ⟨"www.google.com", "/search?q=a+b+c"⟩
    ⟨"/search?", "q"⟩ (by decide) (by decide) (by decide)
  exact ⟨h1.trans (by rfl), h2.trans (by rfl)⟩

/-- C5: when the resolved public suffix occurs nowhere in the resolved
base domain (`host.indexOf(publicSuffix) == -1`), the search term is the
empty string. -/
theorem claim_C5 (svc : ETLDService) (uri : URI)
    (h : ∀ i ≤ (getBaseDomainFromHost svc uri.host).data.length,
      (getPublicSuffix svc uri).data.isPrefixOf
        ((getBaseDomainFromHost svc uri.host).data.drop i) = false) :
    getSearchTermFromURI svc uri = .ok "" := by
  simp only [getSearchTermFromURI]
  rw [if_pos (strIndexOf_eq_neg_one _ _ h)]

/-- C5 witness: base domain `"abc"`, public suffix `"zz"` (not a
substring). -/
theorem claim_C5_witness :
    getSearchTermFromURI svcAbc ⟨"abc", "/search?q=x"⟩ = .ok "" :=
  claim_C5 svcAbc ⟨"abc", "/search?q=x"⟩ (by decide)

/-- If the length argument is non-positive, `substr` yields `""`. -/
theorem jsSubstrLen_nonpos (s : String) (start : Nat) (len : Int) (h : len ≤ 0) :
    jsSubstrLen s start len = "" := by
  unfold jsSubstrLen
  rw [Int.toNat_of_nonpos h]
  rfl

/-- C6: when the resolved base domain equals the resolved public suffix,
the derived short-name is empty, the table lookup fails, and the search
term is the empty string. -/
theorem claim_C6 (svc : ETLDService) (uri : URI)
    (h : getBaseDomainFromHost svc uri.host = getPublicSuffix svc uri) :
    getSearchTermFromURI svc uri = .ok "" := by
  simp only [getSearchTermFromURI, ← h]
  rw [if_neg (by rw [strIndexOf_self]; decide)]
  rw [jsSubstrLen_nonpos _ _ _ (by omega)]
  rfl

/-- C6 witness: host `"com"` with base domain and public suffix both
`"com"`. -/
theorem claim_C6_witness :
    getSearchTermFromURI svcCom ⟨"com", "/search?q=x"⟩ = .ok "" :=
  claim_C6 svcCom ⟨"com", "/search?q=x"⟩ rfl

/-- C7: when the short-name resolves to a known provider but the path
does not begin with the provider's `pathPrefix` at position 0, the
search term is the empty string. -/
theorem claim_C7 (svc : ETLDService) (uri : URI) (entry : SearchEntry)
    (hprov : searchMapLookup (jsSubstrLen (getBaseDomainFromHost svc uri.host) 0
        (((getBaseDomainFromHost svc uri.host).data.length : Int)
          - ((getPublicSuffix svc uri).data.length : Int) - 1)) = some entry)
    (hpath : strIndexOf uri.path entry.path ≠ 0) :
    getSearchTermFromURI svc uri = .ok "" := by
  simp only [getSearchTermFromURI]
  by_cases hsub :
      strIndexOf (getBaseDomainFromHost svc uri.host) (getPublicSuffix svc uri) = -1
  · rw [if_pos hsub]
  · rw [if_neg hsub]
    simp only [hprov]
    rw [if_pos hpath]

/-- C7 witness: the spec's example `host="www.google.com"`,
`path="/other?q=test"`. -/
theorem claim_C7_witness :
    getSearchTermFromURI svcGoogle ⟨"www.google.com", "/other?q=test"⟩ = .ok "" :=
  claim_C7 svcGoogle ⟨"www.google.com", "/other?q=test"⟩ ⟨"/search?", "q"⟩
    (by decide) (by decide)

/-- C8: `getKeyForQuery` is deterministic (a pure function of the query
and the fixed SHA-256 primitive: equal inputs give equal outputs, with
no salt or per-call randomness in the embedding), hashes the query
directly (`getHash` with no domain normalization), and — the digest
being 32 bytes — returns 48 lowercase hexadecimal characters. -/
theorem claim_C8 (sha256 : String → List Nat) (q q₁ q₂ : String)
    (hlen : ∀ s, (sha256 s).length = 32) (hbyte : ∀ s, ∀ b ∈ sha256 s, b < 256) :
    (q₁ = q₂ → getKeyForQuery sha256 q₁ = getKeyForQuery sha256 q₂) ∧
    getKeyForQuery sha256 q = getHash sha256 q ∧
    (getKeyForQuery sha256 q).length = 48 ∧
    ∀ c ∈ (getKeyForQuery sha256 q).data, c ∈ hexLowerChars := by
  exact ⟨fun he => by rw [he], rfl, (getHash_spec sha256 q (hlen q) (hbyte q)).1,
         (getHash_spec sha256 q (hlen q) (hbyte q)).2⟩

/-- C8 witness: the concrete digest `0, ..., 31` on the query `"abc"`. -/
theorem claim_C8_witness :
    getKeyForQuery shaDummy "abc" = getKeyForQuery shaDummy "abc" ∧
    getKeyForQuery shaDummy "abc" = getHash shaDummy "abc" ∧
    (getKeyForQuery shaDummy "abc").length = 48 := by
  have h1 : ∀ s, (shaDummy s).length = 32 := fun s => by simp [shaDummy]
  have h2 : ∀ s, ∀ b ∈ shaDummy s, b < 256 := by
    intro s b hb
    simp [shaDummy, List.mem_range] at hb
    omega
  have hc := claim_C8 shaDummy "abc" "abc" "abc" h1 h2
  exact ⟨hc.1 rfl, hc.2.1, hc.2.2.1⟩

/-- C9: the provider table is the fixed four-entry mapping (amazon,
bing, google, yahoo — a constant definition, never mutated), every
entry's `pathPrefix` starts with `/` and ends with `?`, and every
entry's `queryParam` is a single nonempty parameter name (no `&`, `=`
or `?` separator characters). -/
theorem claim_C9 :
    searchMap.length = 4 ∧
    searchMap.map Prod.fst = ["amazon", "bing", "google", "yahoo"] ∧
    ∀ p ∈ searchMap, p.2.path.data.head? = some '/' ∧
      p.2.path.data.getLast? = some '?' ∧
      p.2.query ≠ "" ∧ ∀ c ∈ p.2.query.data, c ≠ '&' ∧ c ≠ '=' ∧ c ≠ '?' := by
  decide

/-- C10: `querystring.parse` returns a (truthy) object for every input
string, so the `if (!q)` parse-failure branch of `getSearchTermFromURI`
is unreachable: the function coincides with its variant in which that
guard is removed. -/
theorem claim_C10 :
    (∀ s, (querystringParseJS s).isSome = true) ∧
    (∀ svc uri, getSearchTermFromURI svc uri = getSearchTermFromURINoGuard svc uri) := by
  exact ⟨fun s => rfl, fun svc uri => rfl⟩
